import Mathlib

/-
Verification of the beat-func audio service core (src/main.py): the
fingerprinting loop, the LRU file cache, the pipeline orchestration in
process_song, the endpoint validation, and the settings-to-BPM-window
derivation. Python functions are embedded shallowly: machine integers are
Nat with explicit reduction modulo 2 ^ 32 where the hash requires it,
dicts are association lists, exceptions are Option/Except, and the
external collaborators (beatmachine engine, mutagen, youtube-dl) enter as
oracle parameters at the exact call sites where main.py invokes them.
-/

set_option autoImplicit false

/-! Fingerprinting (find_or_load_beats, lines 74-80): xxhash.xxh32 with
seed 0, fed 512-byte blocks. The hash itself is the reference XXH32
algorithm, implemented over byte lists with 32-bit modular arithmetic. -/

/-- Reduction modulo 2 ^ 32, the word size of XXH32. -/
def u32 (x : Nat) : Nat := x % 2 ^ 32

def xxhPrime1 : Nat := 2654435761

def xxhPrime2 : Nat := 2246822519

def xxhPrime3 : Nat := 3266489917

def xxhPrime4 : Nat := 668265263

def xxhPrime5 : Nat := 374761393

/-- Rotation of a 32-bit value left by r bits (exact for x < 2 ^ 32). -/
def rotl32 (x r : Nat) : Nat := (x % 2 ^ (32 - r)) * 2 ^ r + x / 2 ^ (32 - r)

/-- Little-endian 32-bit word read from four bytes. -/
def le32 (b0 b1 b2 b3 : Nat) : Nat := b0 + 256 * b1 + 65536 * b2 + 16777216 * b3

/-- Accumulator round of XXH32. -/
def xxhRound (acc lane : Nat) : Nat :=
  u32 (rotl32 (u32 (acc + lane * xxhPrime2)) 13 * xxhPrime1)

/-- Stripe phase of XXH32: consume 16-byte stripes through the four lane
accumulators, returning the final accumulators and the unconsumed tail. -/
def xxhStripes : Nat → Nat → Nat → Nat → List Nat → (Nat × Nat × Nat × Nat) × List Nat
  | a1, a2, a3, a4,
    b0 :: b1 :: b2 :: b3 :: b4 :: b5 :: b6 :: b7 ::
    b8 :: b9 :: b10 :: b11 :: b12 :: b13 :: b14 :: b15 :: rest =>
      xxhStripes (xxhRound a1 (le32 b0 b1 b2 b3)) (xxhRound a2 (le32 b4 b5 b6 b7))
        (xxhRound a3 (le32 b8 b9 b10 b11)) (xxhRound a4 (le32 b12 b13 b14 b15)) rest
  | a1, a2, a3, a4, l => ((a1, a2, a3, a4), l)

/-- Tail phase of XXH32 consuming remaining 4-byte words. -/
def xxhTail4 : Nat → List Nat → Nat × List Nat
  | acc, b0 :: b1 :: b2 :: b3 :: rest =>
      xxhTail4 (u32 (rotl32 (u32 (acc + le32 b0 b1 b2 b3 * xxhPrime3)) 17 * xxhPrime4)) rest
  | acc, l => (acc, l)

/-- Tail phase of XXH32 consuming remaining single bytes. -/
def xxhTail1 : Nat → List Nat → Nat
  | acc, b :: rest => xxhTail1 (u32 (rotl32 (u32 (acc + b * xxhPrime5)) 11 * xxhPrime1)) rest
  | acc, [] => acc

/-- Final avalanche mix of XXH32. -/
def xxhAvalanche (acc : Nat) : Nat :=
  let a1 := acc ^^^ (acc / 2 ^ 15)
  let a2 := u32 (a1 * xxhPrime2)
  let a3 := a2 ^^^ (a2 / 2 ^ 13)
  let a4 := u32 (a3 * xxhPrime3)
  a4 ^^^ (a4 / 2 ^ 16)

/-- XXH32 digest value, seed 0, of a byte sequence: the value of
xxhash.xxh32(data).digest() read as a number. -/
def xxh32 (input : List Nat) : Nat :=
  let n := input.length
  let p :=
    if 16 ≤ n then
      let q := xxhStripes (u32 (xxhPrime1 + xxhPrime2)) xxhPrime2 0 (u32 (2 ^ 32 - xxhPrime1)) input
      (u32 (rotl32 q.1.1 1 + rotl32 q.1.2.1 7 + rotl32 q.1.2.2.1 12 + rotl32 q.1.2.2.2 18), q.2)
    else (xxhPrime5, input)
  let acc1 := u32 (p.1 + n)
  let q2 := xxhTail4 acc1 p.2
  xxhAvalanche (xxhTail1 q2.1 q2.2)

/-- Read loop of find_or_load_beats: block = file.read(512); while block:
h.update(block); block = file.read(512). The hasher state is modelled as
the bytes fed so far (the xxhash library guarantees that streaming updates
hash exactly the concatenation of the fed blocks). -/
def hashUpdateLoop (fed : List Nat) (pending : List Nat) : List Nat :=
  if h : pending = [] then fed
  else hashUpdateLoop (fed ++ pending.take 512) (pending.drop 512)
termination_by pending.length
decreasing_by
  simp only [List.length_drop]
  have hp : 0 < pending.length := List.length_pos.mpr h
  omega

/-- Fingerprint d computed by find_or_load_beats from the byte content of
the opened file: xxh32 digest of the 512-byte-block stream. -/
def fingerprint (content : List Nat) : Nat := xxh32 (hashUpdateLoop [] content)

/-- Fingerprint of a named file under a file system fs mapping filenames
to byte content; the filename is used only to open the file. -/
def fingerprintOfFile (fs : String → List Nat) (filename : String) : Nat :=
  fingerprint (fs filename)

/-! LRU file cache (LRUFileCache, lines 47-58), modelled together with the
disk holding the pickled beat artifacts it manages. The base class is
cachetools.LRUCache: an insertion/recency-ordered mapping whose iteration
order is least-recently-used first; __getitem__ moves the key to
most-recently-used, __contains__ does not, and __setitem__ evicts via
popitem while the size would exceed maxsize before inserting. -/

/-- Opaque beat-analysis artifact produced by the external beatmachine
engine (bm.Beats), identified abstractly. -/
structure Beats where
  val : Nat
  deriving DecidableEq, Repr

/-- On-disk pickle files: filename paired with the artifact the file
deserializes to; none marks a file whose pickle.load raises (corruption).
A filename absent from the list does not exist on disk. -/
abbrev Disk := List (String × Option Beats)

/-- os.path.isfile. -/
def diskHas (disk : Disk) (name : String) : Bool := disk.any (fun e => e.1 = name)

/-- os.remove. -/
def diskRemove (disk : Disk) (name : String) : Disk := disk.filter (fun e => e.1 ≠ name)

/-- Opening name for writing and pickling b into it, replacing previous content. -/
def diskWrite (disk : Disk) (name : String) (b : Option Beats) : Disk :=
  (name, b) :: diskRemove disk name

/-- Unpickling the file called name: succeeds exactly when the file exists
and its content deserializes. -/
def diskLoad (disk : Disk) (name : String) : Option Beats :=
  match disk.find? (fun e => e.1 = name) with
  | some e => e.2
  | none => none

/-- State of the process-wide cache = LRUFileCache(maxsize=8) together
with the disk it manages. items is ordered least-recently-used first,
mirroring the eviction order of cachetools.LRUCache; keys are the xxh32
fingerprints, values the pickle filenames. -/
structure CacheState where
  maxsize : Nat
  items : List (Nat × String)
  disk : Disk
  deriving DecidableEq, Repr

/-- Membership test d in cache (cachetools Cache.__contains__); performs
no recency update. -/
def cacheContains (st : CacheState) (k : Nat) : Bool := st.items.any (fun e => e.1 = k)

/-- Value stored under k, before any recency update. -/
def cacheFind (st : CacheState) (k : Nat) : Option String :=
  (st.items.find? (fun e => e.1 = k)).map (fun e => e.2)

/-- Recency update performed by cachetools LRUCache.__getitem__ on a hit:
move k to the most-recently-used position. -/
def cacheTouch (st : CacheState) (k : Nat) : CacheState :=
  match cacheFind st k with
  | none => st
  | some v => { st with items := st.items.filter (fun e => e.1 ≠ k) ++ [(k, v)] }

/-- LRUFileCache.popitem: pop the least-recently-used entry and delete its
backing file when it exists; a missing backing file is silently skipped.
cachetools raises KeyError on an empty cache, which the eviction loop
below never triggers; the empty case is modelled as a no-op. -/
def popitem (st : CacheState) : CacheState :=
  match st.items with
  | [] => st
  | (_, v) :: rest =>
    { st with items := rest,
              disk := if diskHas st.disk v then diskRemove st.disk v else st.disk }

/-- Eviction loop of cachetools Cache.__setitem__: while the new size
would exceed maxsize, popitem. -/
def evictLoop (st : CacheState) : CacheState :=
  if h : st.maxsize < st.items.length + 1 ∧ st.items ≠ [] then evictLoop (popitem st) else st
termination_by st.items.length
decreasing_by
  rcases st with ⟨m, items, disk⟩
  cases items with
  | nil => exact absurd rfl h.2
  | cons e rest => simp [popitem]

/-- cache[k] = v (cachetools Cache.__setitem__ followed by the LRUCache
recency update): an existing key is updated in place and marked
most-recently-used without eviction; a new key first evicts down to
capacity, then is inserted most-recently-used. -/
def setitem (st : CacheState) (k : Nat) (v : String) : CacheState :=
  if cacheContains st k then
    { st with items := st.items.filter (fun e => e.1 ≠ k) ++ [(k, v)] }
  else
    let st1 := evictLoop st
    { st1 with items := st1.items ++ [(k, v)] }

/-- Cache as constructed at module load: LRUFileCache(maxsize=8), empty
index, no backing files yet. -/
def initialCache : CacheState := CacheState.mk 8 [] []

/-- Sequence of store operations cache[d] = filename folded over a state,
as issued by find_or_load_beats line 96. -/
def storeSeq (ops : List (Nat × String)) : CacheState :=
  ops.foldl (fun st op => setitem st op.1 op.2) initialCache

/-! find_or_load_beats (lines 73-98) and process_song (lines 101-131). -/

/-- Result of find_or_load_beats: the beats returned, the cache/disk state
afterwards, and whether the external engine bm.Beats.from_song ran. -/
structure LoadResult where
  beats : Beats
  state : CacheState
  engineInvoked : Bool
  deriving DecidableEq, Repr

/-- Miss path of find_or_load_beats (lines 89-98): invoke the engine,
pickle the result to filename + "_beats.pkl", record the filename in the
cache under d. engine stands for the value bm.Beats.from_song(filename,
beat_loader=loader) would produce. -/
def storeBeats (st : CacheState) (d : Nat) (filename : String) (engine : Beats) : LoadResult :=
  let beat_filename := filename ++ "_beats.pkl"
  let st1 := { st with disk := diskWrite st.disk beat_filename (some engine) }
  LoadResult.mk engine (setitem st1 d beat_filename) true

/-- find_or_load_beats: hash the file content in 512-byte blocks, return
the unpickled artifact on a clean cache hit (cache[d] moves d to
most-recently-used), and on a miss — or when pickle.load raises and the
except branch falls through — recompute via the engine and store. -/
def find_or_load_beats (content : List Nat) (filename : String) (engine : Beats)
    (st : CacheState) : LoadResult :=
  let d := fingerprint content
  match cacheFind st d with
  | some v =>
    let st1 := cacheTouch st d
    match diskLoad st1.disk v with
    | some b => LoadResult.mk b st1 false
    | none => storeBeats st1 d filename engine
  | none => storeBeats st d filename engine

/-- Effect value obtained from bm.effects.load_from_dict. -/
structure Effect where
  kind : String
  deriving DecidableEq, Repr

/-- Opaque encoded audio stream: the buffer handed to StreamingResponse. -/
structure AudioStream where
  val : Nat
  deriving DecidableEq, Repr

/-- Error conditions process_song terminates with: the two HTTPExceptions
it raises itself, and any exception propagating out of beat analysis,
effect application or encoding (surfaced by the framework as a 500). -/
inductive PSErr
  | metadataUnreadable
  | tooLong
  | processingFailed
  deriving DecidableEq, Repr

/-- HTTP status of each process_song error condition. -/
def statusOf : PSErr → Nat
  | PSErr.metadataUnreadable => 422
  | PSErr.tooLong => 422
  | PSErr.processingFailed => 500

def MAX_LENGTH : Nat := 60 * 6 + 30

/-- Loop for e in effects: beats = beats.apply(e); a raising apply aborts
the request. -/
def applyEffects (applyE : Beats → Effect → Option Beats) : Beats → List Effect → Option Beats
  | b, [] => some b
  | b, e :: rest =>
    match applyE b e with
    | none => none
    | some b2 => applyEffects applyE b2 rest

/-- process_song control flow, lines 104-131. duration is the value of
MP3(filename).info.length, none when MP3 raises MutagenError; beatsResult
is the outcome of find_or_load_beats, none when an exception propagates
out of it (engine failure); applyE models beats.apply(e) and save models
beats.save(buf, out_format="mp3"), none meaning the call raises. The Bool
component records whether os.remove(filename) on line 126 executed. -/
def process_song (duration : Option ℚ) (effects : List Effect) (beatsResult : Option Beats)
    (applyE : Beats → Effect → Option Beats) (save : Beats → Option AudioStream) :
    Except PSErr AudioStream × Bool :=
  match duration with
  | none => (Except.error PSErr.metadataUnreadable, false)
  | some len =>
    if (MAX_LENGTH : ℚ) < len then (Except.error PSErr.tooLong, false)
    else
      match beatsResult with
      | none => (Except.error PSErr.processingFailed, false)
      | some beats =>
        match applyEffects applyE beats effects with
        | none => (Except.error PSErr.processingFailed, false)
        | some final =>
          match save final with
          | none => (Except.error PSErr.processingFailed, false)
          | some stream => (Except.ok stream, true)

/-! Endpoint validation: process_song_from_file (POST /, lines 177-223)
and process_song_from_youtube (POST /yt, lines 140-174). -/

/-- Effect descriptor as parsed from the request JSON; valid abstracts
whether bm.effects.load_from_dict resolves it to a known effect with
well-formed parameters (it raises TypeError otherwise). -/
structure EffectDict where
  kind : String
  valid : Bool
  deriving DecidableEq, Repr

/-- bm.effects.load_from_dict: resolve one descriptor or raise TypeError. -/
def load_from_dict (d : EffectDict) : Option Effect :=
  if d.valid then some (Effect.mk d.kind) else none

/-- List comprehension [bm.effects.load_from_dict(e) for e in effect_data]:
the first TypeError aborts it. -/
def loadEffects : List EffectDict → Option (List Effect)
  | [] => some []
  | d :: rest =>
    match load_from_dict d with
    | none => none
    | some e => (loadEffects rest).map (fun es => e :: es)

/-- HTTPException raised by the endpoints before process_song runs. -/
structure HttpErr where
  status : Nat
  detail : String
  deriving DecidableEq, Repr

/-- Effect validation of process_song_from_file (POST /): resolve the
descriptors (TypeError becomes 400 "Invalid effect data"), then reject
chains of more than 5 or fewer than 1 effects, both 400, before the song
is written to a temp file and process_song runs. -/
def fileEndpointValidate (effect_data : List EffectDict) : Except HttpErr (List Effect) :=
  match loadEffects effect_data with
  | none => Except.error (HttpErr.mk 400 "Invalid effect data")
  | some effects =>
    if 5 < effects.length then Except.error (HttpErr.mk 400 "Too many effects (max is 5)")
    else if effects.length < 1 then Except.error (HttpErr.mk 400 "Not enough effects (min is 1)")
    else Except.ok effects

/-- Effect validation of process_song_from_youtube (POST /yt): resolve the
descriptors (TypeError becomes 400 "Invalid effect data") and continue to
the download and process_song; the endpoint has no chain-length check. -/
def ytEndpointValidate (effect_data : List EffectDict) : Except HttpErr (List Effect) :=
  match loadEffects effect_data with
  | none => Except.error (HttpErr.mk 400 "Invalid effect data")
  | some effects => Except.ok effects

/-! Settings (_settings_to_kwargs, lines 61-70), over Python dicts
modelled as association lists of int-valued entries. -/

abbrev PyDict := List (String × Int)

/-- dict lookup d[k] as an Option. -/
def dictGet (d : PyDict) (k : String) : Option Int :=
  (d.find? (fun e => e.1 = k)).map (fun e => e.2)

/-- dict assignment d[k] = v: replace in place, or append a new entry. -/
def dictSet (d : PyDict) (k : String) (v : Int) : PyDict :=
  if d.any (fun e => e.1 = k) then d.map (fun e => if e.1 = k then (k, v) else e)
  else d ++ [(k, v)]

/-- settings.pop(k, default): the value and the dict with k removed. -/
def dictPop (d : PyDict) (k : String) (dflt : Int) : Int × PyDict :=
  match dictGet d k with
  | some v => (v, d.filter (fun e => e.1 ≠ k))
  | none => (dflt, d)

/-- Translation of _settings_to_kwargs: defaults min_bpm 60 / max_bpm 300,
overridden to suggested_bpm ∓ drift (drift popped with default 15) when
suggested_bpm is present. -/
def settings_to_kwargs (settings : PyDict) : PyDict :=
  let kwargs : PyDict := [("min_bpm", 60), ("max_bpm", 300)]
  match dictGet settings "suggested_bpm" with
  | none => kwargs
  | some suggested_bpm =>
    let drift := (dictPop settings "drift" 15).1
    dictSet (dictSet kwargs "min_bpm" (suggested_bpm - drift)) "max_bpm" (suggested_bpm + drift)

/-! Facts about the fingerprint stream. -/

theorem u32_lt (x : Nat) : u32 x < 2 ^ 32 := Nat.mod_lt _ (by norm_num)

theorem xor_lt_32 {a b : Nat} (ha : a < 2 ^ 32) (hb : b < 2 ^ 32) : a ^^^ b < 2 ^ 32 :=
  Nat.bitwise_lt ha hb

theorem xxhAvalanche_lt (acc : Nat) : xxhAvalanche acc < 2 ^ 32 := by
  unfold xxhAvalanche
  exact xor_lt_32 (u32_lt _) (lt_of_le_of_lt (Nat.div_le_self _ _) (u32_lt _))

theorem xxh32_lt (input : List Nat) : xxh32 input < 2 ^ 32 := by
  unfold xxh32
  exact xxhAvalanche_lt _

theorem hashUpdateLoop_bounded : ∀ (n : Nat) (pending fed : List Nat), pending.length ≤ n →
    hashUpdateLoop fed pending = fed ++ pending := by
  intro n
  induction n with
  | zero =>
    intro pending fed hle
    have hp : pending = [] := List.eq_nil_of_length_eq_zero (Nat.le_zero.mp hle)
    subst hp
    rw [hashUpdateLoop]
    simp
  | succ n ih =>
    intro pending fed hle
    rw [hashUpdateLoop]
    by_cases h : pending = []
    · subst h; simp
    · have hp : 0 < pending.length := List.length_pos.mpr h
      rw [dif_neg h, ih (pending.drop 512) (fed ++ pending.take 512) (by
        simp only [List.length_drop]; omega)]
      rw [List.append_assoc, List.take_append_drop]

theorem hashUpdateLoop_eq (fed pending : List Nat) :
    hashUpdateLoop fed pending = fed ++ pending :=
  hashUpdateLoop_bounded pending.length pending fed le_rfl

/-- C9: the fingerprint streams the file content in fixed 512-byte blocks
through the 32-bit xxh32 streaming hash, the streamed digest equals the
one-shot xxh32 of the whole content, the digest fits in 32 bits, and the
fingerprint is a function of byte content alone: byte-identical files get
identical fingerprints independent of filename or path. -/
theorem fingerprint_content_deterministic (fs : String → List Nat) (a b : String)
    (h : fs a = fs b) :
    fingerprintOfFile fs a = fingerprintOfFile fs b ∧
    fingerprintOfFile fs a = xxh32 (fs a) ∧
    fingerprintOfFile fs a < 2 ^ 32 := by
  refine ⟨by rw [fingerprintOfFile, fingerprintOfFile, h], ?_, ?_⟩
  · rw [fingerprintOfFile, fingerprint, hashUpdateLoop_eq, List.nil_append]
  · exact xxh32_lt _

/-- Witness for C9 at a concrete three-byte file stored under two names. -/
theorem fingerprint_content_deterministic_witness :
    fingerprintOfFile (fun _ => [97, 98, 99]) "/tmp/a.mp3" =
      fingerprintOfFile (fun _ => [97, 98, 99]) "/home/b.mp3" ∧
    fingerprintOfFile (fun _ => [97, 98, 99]) "/tmp/a.mp3" = xxh32 [97, 98, 99] ∧
    fingerprintOfFile (fun _ => [97, 98, 99]) "/tmp/a.mp3" < 2 ^ 32 :=
  fingerprint_content_deterministic (fun _ => [97, 98, 99]) "/tmp/a.mp3" "/home/b.mp3" rfl

/-- C1 counterexample: a request whose metadata is unreadable (MP3 raises
MutagenError) exits process_song on a failure path with the temporary
source file still present — os.remove(filename) on line 126 never ran, so
the file is not deleted on every exit path. -/
theorem process_song_cleanup_cex :
    process_song none [] none (fun b _ => some b) (fun _ => some (AudioStream.mk 0)) =
      (Except.error PSErr.metadataUnreadable, false) := rfl

/-- C1 amended: process_song deletes the temporary source file exactly on
the success path; when any step fails (metadata unreadable, too-long
audio, beat analysis, effect application or encoding failure) the
exception propagates before the os.remove call and the file survives. -/
theorem process_song_cleanup_on_success_only (duration : Option ℚ) (effects : List Effect)
    (beatsResult : Option Beats) (applyE : Beats → Effect → Option Beats)
    (save : Beats → Option AudioStream) :
    (process_song duration effects beatsResult applyE save).2 = true ↔
      ∃ s, (process_song duration effects beatsResult applyE save).1 = Except.ok s := by
  unfold process_song
  rcases duration with _ | len
  · simp
  · by_cases hlen : (MAX_LENGTH : ℚ) < len
    · simp [hlen]
    · rcases beatsResult with _ | beats
      · simp [hlen]
      · rcases happ : applyEffects applyE beats effects with _ | final
        · simp [hlen, happ]
        · rcases hsave : save final with _ | stream
          · simp [hlen, happ, hsave]
          · simp [hlen, happ, hsave]

/-- C7: with readable metadata, process_song rejects with the too-long 422
condition exactly when the duration strictly exceeds MAX_LENGTH = 390
seconds, so 390 seconds passes the check and 391 is rejected. -/
theorem duration_boundary (d : ℚ) (effects : List Effect) (beatsResult : Option Beats)
    (applyE : Beats → Effect → Option Beats) (save : Beats → Option AudioStream) :
    ((process_song (some d) effects beatsResult applyE save).1 = Except.error PSErr.tooLong ↔
      (390 : ℚ) < d) ∧
    statusOf PSErr.tooLong = 422 ∧ MAX_LENGTH = 390 := by
  refine ⟨?_, rfl, rfl⟩
  unfold process_song
  have h390 : (MAX_LENGTH : ℚ) = 390 := by norm_num [MAX_LENGTH]
  by_cases hlen : (MAX_LENGTH : ℚ) < d
  · simp only [hlen, if_true]
    rw [← h390]
    simp [hlen]
  · simp only [hlen, if_false]
    rw [← h390]
    constructor
    · intro h
      exfalso
      rcases beatsResult with _ | beats
      · simp at h
      · rcases happ : applyEffects applyE beats effects with _ | final
        · simp [happ] at h
        · rcases hsave : save final with _ | stream
          · simp [happ, hsave] at h
          · simp [happ, hsave] at h
    · intro h
      exact absurd h hlen

/-- C2 counterexample: a chain of six otherwise-valid effects submitted to
the /yt endpoint is not rejected — process_song_from_youtube resolves the
descriptors and proceeds without any chain-length check, contradicting
the claim that both endpoints reject chains outside [1, 5] with a 400. -/
theorem effect_chain_length_cex :
    ytEndpointValidate
      [EffectDict.mk "swap" true, EffectDict.mk "swap" true, EffectDict.mk "swap" true,
       EffectDict.mk "swap" true, EffectDict.mk "swap" true, EffectDict.mk "swap" true] =
    Except.ok
      [Effect.mk "swap", Effect.mk "swap", Effect.mk "swap",
       Effect.mk "swap", Effect.mk "swap", Effect.mk "swap"] := rfl

/-- C2 amended: on the upload endpoint (POST /) a chain of
otherwise-valid effects is accepted exactly when its length lies in
[1, 5] and is otherwise rejected with a 400; the /yt endpoint performs no
chain-length validation and accepts chains of any length. -/
theorem effect_chain_length_validation (eds : List EffectDict) (effects : List Effect)
    (h : loadEffects eds = some effects) :
    (fileEndpointValidate eds = Except.ok effects ↔
      1 ≤ effects.length ∧ effects.length ≤ 5) ∧
    (5 < effects.length →
      fileEndpointValidate eds = Except.error (HttpErr.mk 400 "Too many effects (max is 5)")) ∧
    (effects.length < 1 →
      fileEndpointValidate eds = Except.error (HttpErr.mk 400 "Not enough effects (min is 1)")) ∧
    ytEndpointValidate eds = Except.ok effects := by
  unfold fileEndpointValidate ytEndpointValidate
  rw [h]
  refine ⟨?_, ?_, ?_, rfl⟩
  · by_cases h5 : 5 < effects.length
    · simp only [h5, if_true]
      constructor
      · intro hc; exact absurd hc (by simp)
      · intro hc; omega
    · by_cases h1 : effects.length < 1
      · simp only [h5, if_false, h1, if_true]
        constructor
        · intro hc; exact absurd hc (by simp)
        · intro hc; omega
      · simp only [h5, if_false, h1, if_true]
        constructor
        · intro _; omega
        · intro _; trivial
  · intro h5
    simp [h5]
  · intro h1
    have h5 : ¬ 5 < effects.length := by omega
    simp [h1, h5]

/-- Witness for C2 amended: a single valid effect is accepted by both
endpoints. -/
theorem effect_chain_length_validation_witness :
    fileEndpointValidate [EffectDict.mk "swap" true] = Except.ok [Effect.mk "swap"] ∧
    ytEndpointValidate [EffectDict.mk "swap" true] = Except.ok [Effect.mk "swap"] := by
  have h := effect_chain_length_validation [EffectDict.mk "swap" true] [Effect.mk "swap"] rfl
  exact ⟨h.1.mpr (by decide), h.2.2.2⟩

/-- C8: the derived BPM search window is [suggested_bpm - drift,
suggested_bpm + drift] when suggested_bpm is present, drift defaulting to
15 when absent, and exactly [60, 300] when suggested_bpm is absent. -/
theorem bpm_window (settings : PyDict) :
    (dictGet settings "suggested_bpm" = none →
      dictGet (settings_to_kwargs settings) "min_bpm" = some 60 ∧
      dictGet (settings_to_kwargs settings) "max_bpm" = some 300) ∧
    (∀ b : Int, dictGet settings "suggested_bpm" = some b →
      dictGet (settings_to_kwargs settings) "min_bpm" =
        some (b - (dictGet settings "drift").getD 15) ∧
      dictGet (settings_to_kwargs settings) "max_bpm" =
        some (b + (dictGet settings "drift").getD 15)) := by
  constructor
  · intro h
    unfold settings_to_kwargs
    rw [h]
    exact ⟨rfl, rfl⟩
  · intro b hb
    unfold settings_to_kwargs
    rw [hb]
    have hdrift : (dictPop settings "drift" 15).1 = (dictGet settings "drift").getD 15 := by
      unfold dictPop
      rcases hd : dictGet settings "drift" with _ | dv <;> simp [hd]
    rw [hdrift]
    constructor <;> rfl

/-- Witness for C8: a request with suggested_bpm 120 and drift 20 yields
the window [100, 140]; empty settings yield [60, 300]. -/
theorem bpm_window_witness :
    (dictGet (settings_to_kwargs [("suggested_bpm", 120), ("drift", 20)]) "min_bpm" =
        some 100 ∧
      dictGet (settings_to_kwargs [("suggested_bpm", 120), ("drift", 20)]) "max_bpm" =
        some 140) ∧
    (dictGet (settings_to_kwargs []) "min_bpm" = some 60 ∧
      dictGet (settings_to_kwargs []) "max_bpm" = some 300) :=
  ⟨(bpm_window [("suggested_bpm", 120), ("drift", 20)]).2 120 rfl, (bpm_window []).1 rfl⟩

/-! Facts about the LRU cache operations. -/

theorem popitem_cons (m : Nat) (k : Nat) (v : String) (rest : List (Nat × String)) (disk : Disk) :
    popitem (CacheState.mk m ((k, v) :: rest) disk) =
      CacheState.mk m rest (if diskHas disk v then diskRemove disk v else disk) := rfl

theorem popitem_maxsize (st : CacheState) : (popitem st).maxsize = st.maxsize := by
  rcases st with ⟨m, items, disk⟩
  cases items with
  | nil => rfl
  | cons e rest => rcases e with ⟨k, v⟩; rfl

theorem popitem_items (st : CacheState) (e : Nat × String) (rest : List (Nat × String))
    (h : st.items = e :: rest) : (popitem st).items = rest := by
  rcases st with ⟨m, items, disk⟩
  simp only at h
  subst h
  rcases e with ⟨k, v⟩
  rfl

theorem evictLoop_stop (st : CacheState)
    (h : ¬(st.maxsize < st.items.length + 1 ∧ st.items ≠ [])) : evictLoop st = st := by
  rw [evictLoop, dif_neg h]

theorem evictLoop_step (st : CacheState)
    (h : st.maxsize < st.items.length + 1 ∧ st.items ≠ []) :
    evictLoop st = evictLoop (popitem st) := by
  rw [evictLoop, dif_pos h]

theorem diskLoad_cons (e : String × Option Beats) (rest : Disk) (name : String) :
    diskLoad (e :: rest) name = if e.1 = name then e.2 else diskLoad rest name := by
  by_cases h : e.1 = name <;> simp [diskLoad, List.find?_cons, h]

theorem diskRemove_cons (e : String × Option Beats) (rest : Disk) (v : String) :
    diskRemove (e :: rest) v =
      if e.1 = v then diskRemove rest v else e :: diskRemove rest v := by
  by_cases h : e.1 = v <;> simp [diskRemove, List.filter_cons, h]

theorem diskLoad_diskRemove_ne (disk : Disk) (v name : String) (h : name ≠ v) :
    diskLoad (diskRemove disk v) name = diskLoad disk name := by
  induction disk with
  | nil => rfl
  | cons e rest ih =>
    rw [diskRemove_cons, diskLoad_cons]
    by_cases he : e.1 = v
    · have hne : ¬(e.1 = name) := fun hc => h (hc ▸ he)
      rw [if_pos he, if_neg hne]
      exact ih
    · rw [if_neg he, diskLoad_cons]
      by_cases hn : e.1 = name
      · rw [if_pos hn, if_pos hn]
      · rw [if_neg hn, if_neg hn]
        exact ih

theorem diskLoad_popitem (st : CacheState) (name : String)
    (hname : ∀ e ∈ st.items, e.2 ≠ name) :
    diskLoad (popitem st).disk name = diskLoad st.disk name := by
  rcases st with ⟨m, items, disk⟩
  cases items with
  | nil => rfl
  | cons e rest =>
    rcases e with ⟨k, v⟩
    have hv : name ≠ v := fun hc => hname (k, v) (by simp) (by simp [hc])
    rw [popitem_cons]
    by_cases hd : diskHas disk v = true
    · simp only [hd, if_true]
      exact diskLoad_diskRemove_ne disk v name hv
    · simp only [hd]
      simp

theorem evictLoop_facts : ∀ (n : Nat) (st : CacheState), st.items.length ≤ n →
    (evictLoop st).maxsize = st.maxsize ∧
    ((evictLoop st).items.length + 1 ≤ st.maxsize ∨ (evictLoop st).items = []) ∧
    (evictLoop st).items.IsSuffix st.items ∧
    (∀ name : String, (∀ e ∈ st.items, e.2 ≠ name) →
      diskLoad (evictLoop st).disk name = diskLoad st.disk name) := by
  intro n
  induction n with
  | zero =>
    intro st hle
    have hnil : st.items = [] := List.eq_nil_of_length_eq_zero (Nat.le_zero.mp hle)
    rw [evictLoop_stop st (by simp [hnil])]
    exact ⟨rfl, Or.inr hnil, List.suffix_refl _, fun name _ => rfl⟩
  | succ n ih =>
    intro st hle
    by_cases hc : st.maxsize < st.items.length + 1 ∧ st.items ≠ []
    · rw [evictLoop_step st hc]
      obtain ⟨e0, rest, hitems⟩ := List.exists_cons_of_ne_nil hc.2
      have hpop : (popitem st).items = rest := popitem_items st e0 rest hitems
      have hlen2 : (popitem st).items.length ≤ n := by
        rw [hpop]
        have h2 := hle
        rw [hitems] at h2
        simp only [List.length_cons] at h2
        omega
      obtain ⟨hmax, hbound, hsuffix, hdisk⟩ := ih (popitem st) hlen2
      refine ⟨hmax.trans (popitem_maxsize st), ?_, ?_, ?_⟩
      · rcases hbound with hb | hb
        · exact Or.inl (by rw [← popitem_maxsize st]; exact hb)
        · exact Or.inr hb
      · refine hsuffix.trans ?_
        rw [hpop, hitems]
        exact List.suffix_cons e0 rest
      · intro name hname
        rw [hdisk name ?_, diskLoad_popitem st name hname]
        intro e he
        refine hname e ?_
        rw [hpop] at he
        rw [hitems]
        exact List.mem_cons_of_mem _ he
    · rw [evictLoop_stop st hc]
      refine ⟨rfl, ?_, List.suffix_refl _, fun name _ => rfl⟩
      rcases Decidable.not_and_iff_or_not.mp hc with hna | hnb
      · exact Or.inl (by omega)
      · exact Or.inr (by simpa using hnb)

theorem setitem_maxsize (st : CacheState) (k : Nat) (v : String) :
    (setitem st k v).maxsize = st.maxsize := by
  unfold setitem
  by_cases hc : cacheContains st k = true
  · simp [hc]
  · simp only [hc, Bool.false_eq_true, if_false]
    exact (evictLoop_facts st.items.length st le_rfl).1

theorem length_filter_lt (items : List (Nat × String)) (k : Nat)
    (h : items.any (fun e => decide (e.1 = k)) = true) :
    (items.filter (fun e => decide (e.1 ≠ k))).length < items.length := by
  induction items with
  | nil => simp at h
  | cons e rest ih =>
    rw [List.filter_cons]
    by_cases he : e.1 = k
    · have hdrop : ¬(decide (e.1 ≠ k) = true) := by simp [he]
      rw [if_neg hdrop]
      have hle := List.length_filter_le (fun e => decide (e.1 ≠ k)) rest
      simp only [List.length_cons]
      omega
    · have hkeep : decide (e.1 ≠ k) = true := by simpa using he
      have hrest : rest.any (fun e => decide (e.1 = k)) = true := by
        simp only [List.any_cons, he] at h
        simpa using h
      have hlt := ih hrest
      rw [if_pos hkeep]
      simp only [List.length_cons]
      omega

theorem setitem_length_le (st : CacheState) (k : Nat) (v : String) (hm : 1 ≤ st.maxsize)
    (hlen : st.items.length ≤ st.maxsize) :
    (setitem st k v).items.length ≤ st.maxsize := by
  unfold setitem
  by_cases hc : cacheContains st k = true
  · simp only [hc, if_true]
    have := length_filter_lt st.items k (by simpa [cacheContains] using hc)
    simp only [List.length_append, List.length_cons, List.length_nil]
    omega
  · simp only [hc, Bool.false_eq_true, if_false]
    obtain ⟨hmax, hbound, _, _⟩ := evictLoop_facts st.items.length st le_rfl
    simp only [List.length_append, List.length_cons, List.length_nil]
    rcases hbound with hb | hb
    · omega
    · rw [hb]
      simpa using hm

theorem evictLoop_of_full (st : CacheState) (hm : 1 ≤ st.maxsize)
    (hlen : st.items.length = st.maxsize) : evictLoop st = popitem st := by
  have hne : st.items ≠ [] := by
    intro h
    rw [h] at hlen
    simp only [List.length_nil] at hlen
    omega
  obtain ⟨e0, rest, hitems⟩ := List.exists_cons_of_ne_nil hne
  have hpop : (popitem st).items = rest := popitem_items st e0 rest hitems
  have hrestlen : rest.length + 1 = st.maxsize := by
    rw [hitems] at hlen
    simpa using hlen
  rw [evictLoop_step st ⟨by omega, hne⟩]
  apply evictLoop_stop
  intro hcon
  have hc1 := hcon.1
  rw [popitem_maxsize, hpop] at hc1
  omega

theorem foldl_setitem_bound : ∀ (ops : List (Nat × String)) (st : CacheState),
    1 ≤ st.maxsize → st.items.length ≤ st.maxsize →
    (ops.foldl (fun st op => setitem st op.1 op.2) st).items.length ≤ st.maxsize := by
  intro ops
  induction ops with
  | nil =>
    intro st h1 h2
    simpa using h2
  | cons op rest ih =>
    intro st h1 h2
    simp only [List.foldl_cons]
    have hmax := setitem_maxsize st op.1 op.2
    have hlen := setitem_length_le st op.1 op.2 h1 h2
    have hrec := ih (setitem st op.1 op.2) (by rw [hmax]; exact h1) (by rw [hmax]; exact hlen)
    rw [hmax] at hrec
    exact hrec

theorem setitem_contains (st : CacheState) (k : Nat) (v : String)
    (h : cacheContains st k = true) :
    setitem st k v = { st with items := st.items.filter (fun e => e.1 ≠ k) ++ [(k, v)] } := by
  rw [setitem, if_pos h]

theorem setitem_not_contains (st : CacheState) (k : Nat) (v : String)
    (h : cacheContains st k = false) :
    setitem st k v = { evictLoop st with items := (evictLoop st).items ++ [(k, v)] } := by
  rw [setitem]
  rw [h]
  simp

theorem cacheTouch_disk (st : CacheState) (k : Nat) : (cacheTouch st k).disk = st.disk := by
  rw [cacheTouch]
  rcases cacheFind st k with _ | v <;> rfl

theorem cacheTouch_maxsize (st : CacheState) (k : Nat) :
    (cacheTouch st k).maxsize = st.maxsize := by
  rw [cacheTouch]
  rcases cacheFind st k with _ | v <;> rfl

theorem cacheFind_append_self (items : List (Nat × String)) (k : Nat) (v : String)
    (h : ∀ e ∈ items, e.1 ≠ k) :
    (items ++ [(k, v)]).find? (fun e => decide (e.1 = k)) = some (k, v) := by
  rw [List.find?_append]
  have hnone : items.find? (fun e => decide (e.1 = k)) = none :=
    List.find?_eq_none.mpr (fun e he => by simpa using h e he)
  rw [hnone]
  simp [List.find?_cons]

theorem cacheFind_none_iff (st : CacheState) (k : Nat) :
    cacheFind st k = none ↔ ∀ e ∈ st.items, e.1 ≠ k := by
  rw [cacheFind]
  constructor
  · intro h e he
    rcases hf : st.items.find? (fun e => decide (e.1 = k)) with _ | e2
    · rw [List.find?_eq_none] at hf
      simpa using hf e he
    · rw [hf] at h
      simp at h
  · intro h
    have hf : st.items.find? (fun e => decide (e.1 = k)) = none :=
      List.find?_eq_none.mpr (fun e he => by simpa using h e he)
    rw [hf]
    rfl

theorem cacheContains_false_of_find_none (st : CacheState) (k : Nat)
    (h : cacheFind st k = none) : cacheContains st k = false := by
  rw [cacheContains, List.any_eq_false]
  intro e he
  simpa using (cacheFind_none_iff st k).mp h e he

theorem cacheFind_cacheTouch_self (st : CacheState) (k : Nat) (v : String)
    (h : cacheFind st k = some v) :
    cacheFind (cacheTouch st k) k = some v := by
  rw [cacheTouch, h]
  rw [cacheFind]
  simp only []
  have hfilter : ∀ e ∈ st.items.filter (fun e => decide (e.1 ≠ k)), e.1 ≠ k := by
    intro e he
    have := List.of_mem_filter he
    simpa using this
  rw [cacheFind_append_self _ k v hfilter]
  rfl

theorem diskLoad_diskWrite_self (disk : Disk) (name : String) (b : Option Beats) :
    diskLoad (diskWrite disk name b) name = b := by
  rw [diskWrite, diskLoad, List.find?_cons]
  simp

theorem storeBeats_def (st : CacheState) (d : Nat) (filename : String) (engine : Beats) :
    storeBeats st d filename engine =
      LoadResult.mk engine
        (setitem { st with disk := diskWrite st.disk (filename ++ "_beats.pkl") (some engine) }
          d (filename ++ "_beats.pkl")) true := rfl

theorem find_or_load_miss (content : List Nat) (filename : String) (engine : Beats)
    (st : CacheState) (h : cacheFind st (fingerprint content) = none) :
    find_or_load_beats content filename engine st =
      storeBeats st (fingerprint content) filename engine := by
  simp only [find_or_load_beats, h]

theorem find_or_load_hit_valid (content : List Nat) (filename : String) (engine : Beats)
    (st : CacheState) (v : String) (b : Beats)
    (hf : cacheFind st (fingerprint content) = some v)
    (hd : diskLoad st.disk v = some b) :
    find_or_load_beats content filename engine st =
      LoadResult.mk b (cacheTouch st (fingerprint content)) false := by
  simp only [find_or_load_beats, hf]
  rw [cacheTouch_disk st (fingerprint content), hd]

theorem find_or_load_hit_corrupt (content : List Nat) (filename : String) (engine : Beats)
    (st : CacheState) (v : String)
    (hf : cacheFind st (fingerprint content) = some v)
    (hd : diskLoad st.disk v = none) :
    find_or_load_beats content filename engine st =
      storeBeats (cacheTouch st (fingerprint content)) (fingerprint content) filename engine := by
  simp only [find_or_load_beats, hf]
  rw [cacheTouch_disk st (fingerprint content), hd]

theorem find_or_load_post (content : List Nat) (f1 : String) (b1 : Beats) (st : CacheState)
    (halias : ∀ e ∈ st.items, e.2 ≠ f1 ++ "_beats.pkl") :
    ∃ w, cacheFind (find_or_load_beats content f1 b1 st).state (fingerprint content) = some w ∧
      diskLoad (find_or_load_beats content f1 b1 st).state.disk w =
        some (find_or_load_beats content f1 b1 st).beats := by
  rcases hf : cacheFind st (fingerprint content) with _ | v
  · rw [find_or_load_miss content f1 b1 st hf, storeBeats_def]
    set d := fingerprint content with hd
    set bf := f1 ++ "_beats.pkl" with hbf
    set st2 : CacheState := { st with disk := diskWrite st.disk bf (some b1) } with hst2
    have hcont : cacheContains st2 d = false := by
      apply cacheContains_false_of_find_none
      rw [cacheFind] at hf ⊢
      exact hf
    rw [setitem_not_contains st2 d bf hcont]
    obtain ⟨hmax, hbound, hsuffix, hdisk⟩ := evictLoop_facts st2.items.length st2 le_rfl
    refine ⟨bf, ?_, ?_⟩
    · rw [cacheFind]
      simp only []
      rw [cacheFind_append_self _ d bf ?_]
      · rfl
      · intro e he
        have hmem : e ∈ st.items := hsuffix.subset he
        exact (cacheFind_none_iff st d).mp hf e hmem
    · simp only []
      rw [hdisk bf ?_]
      · exact diskLoad_diskWrite_self st.disk bf (some b1)
      · intro e he
        exact halias e he
  · rcases hdv : diskLoad st.disk v with _ | b
    · rw [find_or_load_hit_corrupt content f1 b1 st v hf hdv, storeBeats_def]
      set d := fingerprint content with hd
      set bf := f1 ++ "_beats.pkl" with hbf
      set st1 : CacheState := cacheTouch st d with hst1
      set st2 : CacheState :=
        { st1 with disk := diskWrite st1.disk bf (some b1) } with hst2
      have htouch : st1.items = st.items.filter (fun e => decide (e.1 ≠ d)) ++ [(d, v)] := by
        rw [hst1, cacheTouch, hf]
      have hcont : cacheContains st2 d = true := by
        rw [cacheContains]
        have : st2.items = st1.items := rfl
        rw [this, htouch]
        simp [List.any_append]
      rw [setitem_contains st2 d bf hcont]
      refine ⟨bf, ?_, ?_⟩
      · rw [cacheFind]
        simp only []
        rw [cacheFind_append_self _ d bf ?_]
        · rfl
        · intro e he
          have := List.of_mem_filter he
          simpa using this
      · simp only []
        rw [cacheTouch_disk st d]
        exact diskLoad_diskWrite_self st.disk bf (some b1)
    · rw [find_or_load_hit_valid content f1 b1 st v b hf hdv]
      refine ⟨v, ?_, ?_⟩
      · exact cacheFind_cacheTouch_self st (fingerprint content) v hf
      · rw [cacheTouch_disk st (fingerprint content)]
        exact hdv

theorem cacheContains_false_iff (st : CacheState) (k : Nat) :
    cacheContains st k = false ↔ ∀ e ∈ st.items, e.1 ≠ k := by
  rw [cacheContains, List.any_eq_false]
  constructor <;> intro h e he <;> simpa using h e he

theorem diskHas_diskRemove_self (disk : Disk) (v : String) :
    diskHas (diskRemove disk v) v = false := by
  induction disk with
  | nil => rfl
  | cons e rest ih =>
    rw [diskRemove_cons]
    by_cases he : e.1 = v
    · rw [if_pos he]
      exact ih
    · rw [if_neg he, diskHas, List.any_cons]
      have hdec : decide (e.1 = v) = false := by simpa using he
      rw [hdec, Bool.false_or]
      exact ih

/-- C3: starting from the empty LRUFileCache(maxsize=8), no sequence of
store operations brings the index above 8 entries; and a store of a new
key into a full 8-entry cache evicts exactly the least-recently-used
entry, the head of the recency order: the resulting index is the old one
minus its head plus the new most-recently-used entry, still of size 8. -/
theorem lru_capacity_and_eviction (ops : List (Nat × String)) (st : CacheState) (k : Nat)
    (v : String) (hm : st.maxsize = 8) (hfull : st.items.length = 8)
    (hnew : cacheContains st k = false) :
    (storeSeq ops).items.length ≤ 8 ∧
    (setitem st k v).items = st.items.tail ++ [(k, v)] ∧
    (setitem st k v).items.length = 8 := by
  have hev : evictLoop st = popitem st :=
    evictLoop_of_full st (by omega) (by omega)
  have hne : st.items ≠ [] := by
    intro hnil
    rw [hnil] at hfull
    simp at hfull
  obtain ⟨e0, rest, hitems⟩ := List.exists_cons_of_ne_nil hne
  have hpop : (popitem st).items = rest := popitem_items st e0 rest hitems
  have hrest : rest.length = 7 := by
    rw [hitems] at hfull
    simpa using hfull
  refine ⟨?_, ?_, ?_⟩
  · have hb := foldl_setitem_bound ops initialCache (by norm_num [initialCache])
      (by norm_num [initialCache])
    simpa [storeSeq, initialCache] using hb
  · rw [setitem_not_contains st k v hnew, hev]
    simp only []
    rw [hpop, hitems]
    rfl
  · rw [setitem_not_contains st k v hnew, hev]
    simp only [List.length_append, List.length_cons, List.length_nil]
    rw [hpop]
    omega

/-- Witness for C3: a fresh full 8-entry cache receiving a new ninth key
drops its head and keeps size 8. -/
theorem lru_capacity_and_eviction_witness :
    (storeSeq [(1, "a")]).items.length ≤ 8 ∧
    (setitem (CacheState.mk 8 [(0, "f0"), (1, "f1"), (2, "f2"), (3, "f3"), (4, "f4"),
        (5, "f5"), (6, "f6"), (7, "f7")] []) 8 "f8").items =
      (CacheState.mk 8 [(0, "f0"), (1, "f1"), (2, "f2"), (3, "f3"), (4, "f4"),
        (5, "f5"), (6, "f6"), (7, "f7")] []).items.tail ++ [(8, "f8")] ∧
    (setitem (CacheState.mk 8 [(0, "f0"), (1, "f1"), (2, "f2"), (3, "f3"), (4, "f4"),
        (5, "f5"), (6, "f6"), (7, "f7")] []) 8 "f8").items.length = 8 :=
  lru_capacity_and_eviction [(1, "a")]
    (CacheState.mk 8 [(0, "f0"), (1, "f1"), (2, "f2"), (3, "f3"), (4, "f4"),
      (5, "f5"), (6, "f6"), (7, "f7")] []) 8 "f8" rfl rfl (by decide)

/-- C4: popping the least-recently-used entry removes it from the index
and deletes its backing file: afterwards the evicted key is no longer
retrievable and the file is gone from disk whether or not it existed
beforehand; when the file is already gone, the os.path.isfile guard skips
deletion and popitem completes normally with the disk untouched. -/
theorem eviction_removes_entry_and_file (st : CacheState) (k : Nat) (v : String)
    (rest : List (Nat × String)) (hitems : st.items = (k, v) :: rest)
    (hk : ∀ e ∈ rest, e.1 ≠ k) :
    cacheContains (popitem st) k = false ∧
    diskHas (popitem st).disk v = false ∧
    (popitem st).items = rest ∧
    (diskHas st.disk v = false → (popitem st).disk = st.disk) := by
  obtain ⟨m, items, disk⟩ := st
  simp only at hitems
  subst hitems
  rw [popitem_cons]
  refine ⟨?_, ?_, rfl, ?_⟩
  · rw [cacheContains_false_iff]
    intro e he
    exact hk e he
  · by_cases hd : diskHas disk v = true
    · simp only [hd, if_true]
      exact diskHas_diskRemove_self disk v
    · simp only [hd, if_false]
      simpa using hd
  · intro hgone
    simp only at hgone ⊢
    rw [if_neg (by rw [hgone]; simp)]

/-- Witness for C4: evicting an entry whose backing file is already gone
while another file is on disk. -/
theorem eviction_removes_entry_and_file_witness :
    cacheContains (popitem (CacheState.mk 8 [(1, "a"), (2, "b")] [("b", some (Beats.mk 5))])) 1
        = false ∧
    diskHas (popitem (CacheState.mk 8 [(1, "a"), (2, "b")] [("b", some (Beats.mk 5))])).disk "a"
        = false ∧
    (popitem (CacheState.mk 8 [(1, "a"), (2, "b")] [("b", some (Beats.mk 5))])).items
        = [(2, "b")] ∧
    (diskHas (CacheState.mk 8 [(1, "a"), (2, "b")] [("b", some (Beats.mk 5))]).disk "a" = false →
      (popitem (CacheState.mk 8 [(1, "a"), (2, "b")] [("b", some (Beats.mk 5))])).disk
        = (CacheState.mk 8 [(1, "a"), (2, "b")] [("b", some (Beats.mk 5))]).disk) :=
  eviction_removes_entry_and_file
    (CacheState.mk 8 [(1, "a"), (2, "b")] [("b", some (Beats.mk 5))]) 1 "a" [(2, "b")]
    rfl (by decide)

/-- C5: a cache lookup whose stored artifact fails to unpickle is treated
as a miss: the except branch swallows the error and find_or_load_beats
falls through to the external engine, recomputes, stores, and returns the
fresh analysis normally — the corruption never surfaces to the caller as
a request failure. -/
theorem corrupt_cache_entry_is_miss (content : List Nat) (filename : String) (engine : Beats)
    (st : CacheState) (v : String)
    (hhit : cacheFind st (fingerprint content) = some v)
    (hbad : diskLoad st.disk v = none) :
    (find_or_load_beats content filename engine st).beats = engine ∧
    (find_or_load_beats content filename engine st).engineInvoked = true := by
  rw [find_or_load_hit_corrupt content filename engine st v hhit hbad, storeBeats_def]
  exact ⟨rfl, rfl⟩

/-- Witness for C5: a one-entry cache whose backing pickle is corrupt. -/
theorem corrupt_cache_entry_is_miss_witness :
    (find_or_load_beats [7] "/tmp/song.mp3" (Beats.mk 3)
        (CacheState.mk 8 [(fingerprint [7], "bf")] [("bf", none)])).beats = Beats.mk 3 ∧
    (find_or_load_beats [7] "/tmp/song.mp3" (Beats.mk 3)
        (CacheState.mk 8 [(fingerprint [7], "bf")] [("bf", none)])).engineInvoked = true :=
  corrupt_cache_entry_is_miss [7] "/tmp/song.mp3" (Beats.mk 3)
    (CacheState.mk 8 [(fingerprint [7], "bf")] [("bf", none)]) "bf"
    (by rw [cacheFind, List.find?_cons_of_pos _ (by simp)]; rfl) rfl

/-- C6: a lookup hit moves the fingerprint to most-recently-used, making
eviction least-recently-accessed rather than insertion-order FIFO: after
cache[k] is read on the oldest-inserted entry of a full 8-entry cache,
inserting a fresh key evicts some other entry — the hit key and the fresh
key both remain and the size stays 8. -/
theorem lookup_hit_updates_recency (st : CacheState) (k k2 : Nat) (v v2 : String)
    (rest : List (Nat × String)) (hm : st.maxsize = 8) (hitems : st.items = (k, v) :: rest)
    (hfull : st.items.length = 8) (hk : ∀ e ∈ rest, e.1 ≠ k)
    (hnew : cacheContains st k2 = false) :
    (cacheTouch st k).items = rest ++ [(k, v)] ∧
    cacheContains (setitem (cacheTouch st k) k2 v2) k = true ∧
    cacheContains (setitem (cacheTouch st k) k2 v2) k2 = true ∧
    (setitem (cacheTouch st k) k2 v2).items.length = 8 := by
  have hfind : cacheFind st k = some v := by
    rw [cacheFind, hitems, List.find?_cons]
    simp
  have hkeep : rest.filter (fun e => decide (e.1 ≠ k)) = rest :=
    List.filter_eq_self.mpr (fun e he => by simpa using hk e he)
  have htouch : (cacheTouch st k).items = rest ++ [(k, v)] := by
    rw [cacheTouch, hfind]
    simp only []
    rw [hitems, List.filter_cons]
    rw [if_neg (by simp)]
    rw [hkeep]
  have hrest7 : rest.length = 7 := by
    rw [hitems] at hfull
    simpa using hfull
  obtain ⟨r0, rest2, hrest⟩ := List.exists_cons_of_ne_nil (l := rest)
    (by intro hn; rw [hn] at hrest7; simp at hrest7)
  have hkeys : ∀ e ∈ st.items, e.1 ≠ k2 := (cacheContains_false_iff st k2).mp hnew
  have hTnew : cacheContains (cacheTouch st k) k2 = false := by
    rw [cacheContains_false_iff]
    rw [htouch]
    intro e he
    rcases List.mem_append.mp he with h1 | h2
    · exact hkeys e (by rw [hitems]; exact List.mem_cons_of_mem _ h1)
    · have he2 : e = (k, v) := by simpa using h2
      subst he2
      exact hkeys (k, v) (by rw [hitems]; exact List.mem_cons_self _ _)
  have hTmax : (cacheTouch st k).maxsize = 8 := by rw [cacheTouch_maxsize, hm]
  have hTlen : (cacheTouch st k).items.length = 8 := by
    rw [htouch]
    simp only [List.length_append, List.length_cons, List.length_nil]
    omega
  have hev : evictLoop (cacheTouch st k) = popitem (cacheTouch st k) :=
    evictLoop_of_full (cacheTouch st k) (by omega) (by omega)
  have hpopT : (popitem (cacheTouch st k)).items = rest2 ++ [(k, v)] := by
    apply popitem_items (cacheTouch st k) r0
    rw [htouch, hrest]
    rfl
  rw [setitem_not_contains (cacheTouch st k) k2 v2 hTnew, hev]
  refine ⟨htouch, ?_, ?_, ?_⟩
  · rw [cacheContains]
    simp only []
    rw [hpopT]
    simp [List.any_append]
  · rw [cacheContains]
    simp only []
    rw [hpopT]
    simp [List.any_append]
  · simp only [List.length_append, List.length_cons, List.length_nil]
    rw [hpopT]
    have : rest2.length = 6 := by
      rw [hrest] at hrest7
      simpa using hrest7
    simp only [List.length_append, List.length_cons, List.length_nil]
    omega

/-- Witness for C6: hit the oldest entry of a full cache, then insert a
ninth key; the hit entry survives. -/
theorem lookup_hit_updates_recency_witness :
    (cacheTouch (CacheState.mk 8 [(0, "f0"), (1, "f1"), (2, "f2"), (3, "f3"), (4, "f4"),
        (5, "f5"), (6, "f6"), (7, "f7")] []) 0).items =
      [(1, "f1"), (2, "f2"), (3, "f3"), (4, "f4"),
        (5, "f5"), (6, "f6"), (7, "f7")] ++ [(0, "f0")] ∧
    cacheContains (setitem (cacheTouch (CacheState.mk 8 [(0, "f0"), (1, "f1"), (2, "f2"),
        (3, "f3"), (4, "f4"), (5, "f5"), (6, "f6"), (7, "f7")] []) 0) 8 "f8") 0 = true ∧
    cacheContains (setitem (cacheTouch (CacheState.mk 8 [(0, "f0"), (1, "f1"), (2, "f2"),
        (3, "f3"), (4, "f4"), (5, "f5"), (6, "f6"), (7, "f7")] []) 0) 8 "f8") 8 = true ∧
    (setitem (cacheTouch (CacheState.mk 8 [(0, "f0"), (1, "f1"), (2, "f2"),
        (3, "f3"), (4, "f4"), (5, "f5"), (6, "f6"), (7, "f7")] []) 0) 8 "f8").items.length = 8 :=
  lookup_hit_updates_recency
    (CacheState.mk 8 [(0, "f0"), (1, "f1"), (2, "f2"), (3, "f3"), (4, "f4"),
      (5, "f5"), (6, "f6"), (7, "f7")] []) 0 8 "f0" "f8"
    [(1, "f1"), (2, "f2"), (3, "f3"), (4, "f4"), (5, "f5"), (6, "f6"), (7, "f7")]
    rfl rfl rfl (by decide) (by decide)

/-- C10: the cache key is derived from the file bytes alone, never from
the tuning parameters: a second find_or_load_beats call on byte-identical
content — under any filename and any settings-derived loader — returns
the artifact produced by the first call without invoking the external
beat engine again. The alias hypothesis says no pre-existing cache entry
points at the pickle filename of the first call (temp filenames are fresh per
request). -/
theorem cache_key_ignores_settings (content : List Nat) (f1 f2 : String) (b1 b2 : Beats)
    (st : CacheState) (halias : ∀ e ∈ st.items, e.2 ≠ f1 ++ "_beats.pkl") :
    (find_or_load_beats content f2 b2 (find_or_load_beats content f1 b1 st).state).beats =
      (find_or_load_beats content f1 b1 st).beats ∧
    (find_or_load_beats content f2 b2
        (find_or_load_beats content f1 b1 st).state).engineInvoked = false := by
  obtain ⟨w, hw1, hw2⟩ := find_or_load_post content f1 b1 st halias
  rw [find_or_load_hit_valid content f2 b2 _ w _ hw1 hw2]
  exact ⟨rfl, rfl⟩

/-- Witness for C10: the same two-byte file processed twice from the empty
cache under different temp filenames and different engine settings. -/
theorem cache_key_ignores_settings_witness :
    (find_or_load_beats [1, 2] "/tmp/s1.mp3" (Beats.mk 2)
        (find_or_load_beats [1, 2] "/tmp/s0.mp3" (Beats.mk 1) initialCache).state).beats =
      (find_or_load_beats [1, 2] "/tmp/s0.mp3" (Beats.mk 1) initialCache).beats ∧
    (find_or_load_beats [1, 2] "/tmp/s1.mp3" (Beats.mk 2)
        (find_or_load_beats [1, 2] "/tmp/s0.mp3" (Beats.mk 1) initialCache).state).engineInvoked
      = false :=
  cache_key_ignores_settings [1, 2] "/tmp/s0.mp3" "/tmp/s1.mp3" (Beats.mk 1) (Beats.mk 2)
    initialCache (by intro e he; simp [initialCache] at he)
